import Mathlib

set_option linter.unusedVariables false

/-! # Verification of the ABS-elevate media pipeline

Shallow embedding of the repository's components: the durable job queue
(`src/job_queue.py`), the callback notifier (`src/callback_service.py`),
the worker orchestration and queue consumer (`src/worker.py`,
`src/consumer.py`), the chapter reconciler (`src/auto_chapters.py`),
the captioning timestamp/SRT writer (`src/captioning.py`), the subtitle
codec and translation front-end (`src/translation.py`) and the ingestion
endpoint (`src/main.py`).  Pure code is translated directly; network and
file-system collaborators are abstracted as explicit outcome
environments; Python dict mutation is modelled by explicit state
passing. -/

namespace ABS

/-! ## Job queue (src/job_queue.py, `enqueue_job`) -/

/-- Result of `enqueue_job`: either the message was published after some
number of attempts (recording the pika `delivery_mode` it was published
with and the backoff waits slept before success), or the retry budget was
exhausted and `enqueue_job` raises an `Exception` carrying `msg`. -/
inductive EnqueueResult where
  | ok (attempts : Nat) (waits : List Nat) (deliveryMode : Nat)
  | err (attempts : Nat) (waits : List Nat) (msg : String)
deriving DecidableEq

/-- The `while attempt < max_retries` loop of `enqueue_job`.
`publishOk i` abstracts whether the publish attempt made when the Python
variable `attempt` equals `i` succeeds (connection + `basic_publish`).
On failure the code does `attempt += 1; wait_time = 2 ** attempt;
time.sleep(wait_time)`.  `made` is the current value of `attempt` (the
number of attempts already made, all failed), `ws` accumulates the waits
in reverse, and the first argument counts the remaining loop iterations
(`max_retries - attempt`). -/
def enqueueAux (publishOk : Nat → Bool) : Nat → Nat → List Nat → EnqueueResult
  | 0, made, ws => .err made ws.reverse "Failed to enqueue job after multiple attempts"
  | r + 1, made, ws =>
    if publishOk made then .ok (made + 1) ws.reverse 2
    else enqueueAux publishOk r (made + 1) (2 ^ (made + 1) :: ws)

/-- `enqueue_job` from src/job_queue.py: retry loop with exponential
backoff; a successful `basic_publish` uses
`pika.BasicProperties(delivery_mode=2)` (hence the `2` recorded in the
`ok` constructor); exhausting `max_retries` raises
`Exception("Failed to enqueue job after multiple attempts")`. -/
def enqueue_job (publishOk : Nat → Bool) (max_retries : Nat) : EnqueueResult :=
  enqueueAux publishOk max_retries 0 []

/-! ## Callback notifier (src/callback_service.py, `send_callback`) -/

/-- A Python value appearing in the worker's `results` dict: `None`, a
string, or a flat dict of strings (the per-category URL maps). -/
inductive PyVal where
  | pnone
  | str (s : String)
  | strDict (d : List (String × String))
deriving DecidableEq

/-- The `results` argument of `send_callback`: a Python dict keyed by
strings. -/
abbrev PyDict := List (String × PyVal)

/-- Python `dict.get` (first binding of the key, if present). -/
def dictGet (d : PyDict) (k : String) : Option PyVal :=
  (d.find? (fun kv => kv.1 == k)).map (fun kv => kv.2)

/-- Python truthiness of the optional `error_message` argument
(`and error_message` is false for `None` and for the empty string). -/
def errTruthy : Option String → Bool
  | none => false
  | some s => !(s == "")

/-- The JSON payload `send_callback` POSTs to the callback URL.  The
`error_message` key is present exactly when the field is `some`. -/
structure CallbackPayload where
  job_id : String
  status : String
  submitted_at : PyVal
  completed_at : String
  results : PyDict
  error_message : Option String
deriving DecidableEq

/-- Payload construction at the top of `send_callback`:
`submitted_at` is `results.get("submitted_at", datetime.utcnow().isoformat() + "Z")`
(`tSub` models that `utcnow()` reading), `completed_at` is a second
`utcnow()` reading (`tComp`), and `error_message` is attached only when
`status.lower() == "failed"` and the message is truthy. -/
def callbackPayload (job_id : String) (results : PyDict) (status : String)
    (error_message : Option String) (tSub tComp : String) : CallbackPayload :=
  { job_id := job_id
    status := status
    submitted_at := (dictGet results "submitted_at").getD (.str (tSub ++ "Z"))
    completed_at := tComp ++ "Z"
    results := results
    error_message :=
      if status.toLower = "failed" ∧ errTruthy error_message then error_message else none }

/-- The `while attempt < max_retries` delivery loop of `send_callback`.
`deliverOk i` abstracts the attempt made when `attempt == i`: `true`
means the POST returned a 2xx status (`raise_for_status` passes);
`false` means a non-2xx response or transport error
(`requests.RequestException`), after which the code sleeps
`backoff_factor ** attempt` and increments `attempt`.  Returns
(delivered?, attempts made, waits slept). -/
def sendCallbackLoop (deliverOk : Nat → Bool) (backoff : Nat) :
    Nat → Nat → List Nat → Bool × Nat × List Nat
  | 0, att, ws => (false, att, ws.reverse)
  | r + 1, att, ws =>
    if deliverOk att then (true, att + 1, ws.reverse)
    else sendCallbackLoop deliverOk backoff r (att + 1) (backoff ^ att :: ws)

/-- `send_callback` from src/callback_service.py: builds the payload and
runs the bounded retry loop; returns
(delivered?, attempts made, waits slept, payload POSTed). -/
def send_callback (job_id callback_url : String) (results : PyDict)
    (status : String) (error_message : Option String)
    (max_retries backoff_factor : Nat) (deliverOk : Nat → Bool)
    (tSub tComp : String) : Bool × Nat × List Nat × CallbackPayload :=
  let payload := callbackPayload job_id results status error_message tSub tComp
  let r := sendCallbackLoop deliverOk backoff_factor max_retries 0 []
  (r.1, r.2.1, r.2.2, payload)

/-! ## Worker pipeline and consumer (src/worker.py `process_job`,
src/consumer.py `on_message`) -/

/-- The serialized job mapping built by src/main.py and delivered by the
queue (`job_id, file_path, preferred_languages, callback_url,
submission_time`); `submission_time` is read in the worker with
`.get`, hence the `Option`. -/
structure JobPayload where
  job_id : String
  file_path : String
  preferred_languages : List String
  callback_url : String
  submission_time : Option String
deriving DecidableEq

/-- Outcomes of the effectful collaborator calls made by `process_job`,
in pipeline order.  `.error e` models the call raising an exception
whose `str` is `e`; uploads yield the S3 HTTPS URL on success. -/
structure StageEnv where
  download : Except String Unit
  transcribe : Except String Unit
  toSrt : Except String Unit
  uploadCaptions : Except String String
  getAssemblyChapters : Except String Unit
  generateLlmChapters : Except String Unit
  writeChaptersFile : Except String Unit
  uploadChapters : Except String String
  parseEntries : Except String Unit
  translateLang : String → Except String Unit
  uploadTranslation : String → Except String String

/-- One invocation of `send_callback` recorded by the worker (arguments
as passed at the call site). -/
structure CallbackCall where
  job_id : String
  callback_url : String
  results : PyDict
  status : String
  error_message : Option String
deriving DecidableEq

/-- Python `str.startswith`, used for `media_source.startswith('http')`. -/
def pyStartsWith (s pre : String) : Bool := pre.data.isPrefixOf s.data

/-- The success-path `results` dict assembled by `process_job` step 5. -/
def buildResults (p : JobPayload) (captions_url chapters_url : String)
    (translation_urls : List (String × String)) : PyDict :=
  [("submitted_at", match p.submission_time with | none => .pnone | some t => .str t),
   ("captions", .strDict [("source", captions_url)]),
   ("chapters", .strDict [("reconciled", chapters_url)]),
   ("translations", .strDict translation_urls)]

/-- The `try:` body of `process_job`: download (only for `http` sources),
captioning, chaptering, per-language translation fan-out, then the
completed-status callback arguments.  Any stage raising aborts the rest
(`Except` bind). -/
def pipelineBody (p : JobPayload) (env : StageEnv) : Except String PyDict := do
  let _ ← if pyStartsWith p.file_path "http" then env.download else pure ()
  let _ ← env.transcribe
  let _ ← env.toSrt
  let captions_url ← env.uploadCaptions
  let _ ← env.getAssemblyChapters
  let _ ← env.generateLlmChapters
  let _ ← env.writeChaptersFile
  let chapters_url ← env.uploadChapters
  let _ ← env.parseEntries
  let translation_urls ← p.preferred_languages.foldlM
    (fun acc code => do
      let _ ← env.translateLang code
      let url ← env.uploadTranslation code
      pure (acc ++ [(code, url)])) []
  pure (buildResults p captions_url chapters_url translation_urls)

/-- `process_job` from src/worker.py: on success the completed callback
is sent and the function returns normally (`none`); on any exception `e`
inside the try-block the worker sends
`send_callback(job_id, callback_url, {}, status='failed',
error_message=str(e))` and re-raises (`some e`).  The second component
records the `send_callback` invocations in order. -/
def process_job (p : JobPayload) (env : StageEnv) :
    Option String × List CallbackCall :=
  match pipelineBody p env with
  | .ok results => (none, [⟨p.job_id, p.callback_url, results, "completed", none⟩])
  | .error e => (some e, [⟨p.job_id, p.callback_url, [], "failed", some e⟩])

/-- The single acknowledgment action taken for a delivery. -/
inductive AckAction where
  | ack
  | nack (requeue : Bool)
deriving DecidableEq

/-- `on_message` from src/consumer.py: `basic_ack` when `process_job`
returns, `basic_nack(requeue=False)` when it raises. -/
def on_message (p : JobPayload) (env : StageEnv) : AckAction :=
  match (process_job p env).1 with
  | none => .ack
  | some _ => .nack false

/-! ## Chapter reconciler (src/auto_chapters.py, `reconcile_chapters`) -/

/-- An AssemblyAI chapter dict: `start`/`end` time offsets, an optional
`headline` key, and an optional `title` key (absent until the reconciler
writes it).  The Python key `end` is modelled by the field `stop`. -/
@[ext] structure Chapter where
  start : ℚ
  stop : ℚ
  headline : Option String
  title : Option String
deriving DecidableEq

/-- An LLM chapter marker: `{"start": float, "end": float, "title": str}`
(key `end` modelled by `stop`). -/
@[ext] structure Marker where
  start : ℚ
  stop : ℚ
  title : String
deriving DecidableEq

/-- Inner-loop body of `reconcile_chapters`:
`if asm['start'] <= marker['start'] < asm['end']:` then
`if len(marker['title']) > len(asm['headline'] if 'headline' in asm else ''):`
then `reconciled[-1]['title'] = marker['title']`.  Only the `title` key
is ever written; `start`, `end` and `headline` are never modified, so
reading them from the accumulator is the aliased dict's current state. -/
def applyMarker (c : Chapter) (m : Marker) : Chapter :=
  if c.start ≤ m.start ∧ m.start < c.stop then
    if (c.headline.getD "").length < m.title.length then { c with title := some m.title }
    else c
  else c

/-- The full inner `for marker in llm` loop over one assembly chapter. -/
def overrideTitles (llm : List Marker) (asm : Chapter) : Chapter :=
  llm.foldl applyMarker asm

/-- The assembly chapters after the title-override pass.  Because
`reconciled.append(asm)` aliases the input dict, this list is both the
primary-derived part of the output and the post-call state of the
records inside the caller's `assembly` list. -/
def updatedAssembly (assembly : List Chapter) (llm : List Marker) : List Chapter :=
  assembly.map (overrideTitles llm)

/-- `overlap = any(abs(marker['start'] - asm['start']) < 1 for asm in assembly)`;
a marker is kept as its own entry iff no overlap. -/
def isNovel (assembly : List Chapter) (m : Marker) : Bool :=
  ! assembly.any (fun asm => decide (|m.start - asm.start| < 1))

/-- The dict appended for a novel LLM marker:
`{'start': ..., 'end': ..., 'headline': marker['title']}`. -/
def toNovel (m : Marker) : Chapter :=
  ⟨m.start, m.stop, some m.title, none⟩

/-- `reconcile_chapters` from src/auto_chapters.py: title-override pass
over the assembly chapters, append novel LLM markers, then the stable
`reconciled.sort(key=lambda x: x['start'])` (Python's sort is stable, as
is `List.insertionSort` with `≤` on the key). -/
def reconcile_chapters (assembly : List Chapter) (llm : List Marker) : List Chapter :=
  List.insertionSort (fun x y => x.start ≤ y.start)
    (updatedAssembly assembly llm ++ (llm.filter (isNovel assembly)).map toNovel)

/-- Post-call state of the chapter records inside the caller's
`assembly` list: `reconciled.append(asm)` stores the dict itself, and
`reconciled[-1]['title'] = ...` therefore mutates the input record. -/
def assemblyAfter (assembly : List Chapter) (llm : List Marker) : List Chapter :=
  updatedAssembly assembly llm

/-- The title-replacement rule as the spec states it (C4's reading):
compare the candidate against the primary's *current* title — the title
as possibly already replaced by an earlier matching secondary — rather
than against the original headline.  Used only to compare the claim's
rule with the implemented one. -/
def specApplyMarker (c : Chapter) (m : Marker) : Chapter :=
  if c.start ≤ m.start ∧ m.start < c.stop then
    if (c.title.getD (c.headline.getD "")).length < m.title.length then
      { c with title := some m.title }
    else c
  else c

/-- The reconciler as the spec's replacement rule would have it (same
novel-marker handling and sort, `specApplyMarker` in the inner loop). -/
def specReconcile (assembly : List Chapter) (llm : List Marker) : List Chapter :=
  List.insertionSort (fun x y => x.start ≤ y.start)
    ((assembly.map (fun asm => llm.foldl specApplyMarker asm)) ++
      (llm.filter (isNovel assembly)).map toNovel)

/-- The condition under which the implementation overrides a title:
marker starts inside `[start, end)` and its title is strictly longer
than the chapter's original headline (`''` when absent). -/
def markerMatches (asm : Chapter) (m : Marker) : Bool :=
  decide (asm.start ≤ m.start ∧ m.start < asm.stop) &&
    decide ((asm.headline.getD "").length < m.title.length)

/-! ## Captioning (src/captioning.py, `ms_to_srt_timestamp`,
`transcript_to_srt`) -/

/-- `ms_to_srt_timestamp` from src/captioning.py.  It builds
`td = timedelta(milliseconds=ms)`, computes `hours, remainder =
divmod(td.seconds, 3600)` etc., but the returned f-string interpolates
`td.hours` — an attribute `datetime.timedelta` does not have — so every
call raises `AttributeError` before producing a string. -/
def ms_to_srt_timestamp (ms : Nat) : Except String String :=
  let tdSeconds := ms / 1000 % 86400
  let tdMicroseconds := ms % 1000 * 1000
  let hours := tdSeconds / 3600
  let remainder := tdSeconds % 3600
  let minutes := remainder / 60
  let seconds := remainder % 60
  let milliseconds := tdMicroseconds / 1000
  Except.error "AttributeError: datetime.timedelta object has no attribute hours"

/-- A word record from the AssemblyAI transcript
(`{'start': ms, 'end': ms, 'text': str}`; key `end` modelled by
`stop`). -/
structure Word where
  start : Nat
  stop : Nat
  text : String
deriving DecidableEq

/-- A flushed caption block `(block_start, block_end, text)`. -/
structure SrtBlock where
  start : Nat
  stop : Nat
  text : String
deriving DecidableEq

/-- `flush_block`: appends `(block_start, current_block[-1]['end'],
' '.join(texts))` when the current block is non-empty. -/
def flushBlock (entries : List SrtBlock) (current : List Word)
    (blockStart : Nat) : List SrtBlock :=
  match current.getLast? with
  | none => entries
  | some w => entries ++ [⟨blockStart, w.stop, " ".intercalate (current.map (fun x => x.text))⟩]

/-- The word-grouping loop of `transcript_to_srt`
(`MAX_CAPTION_DURATION_MS = 5000`, `MAX_WORDS_PER_CAPTION = 15`). -/
def srtLoop : List Word → List SrtBlock → List Word → Option Nat → List SrtBlock
  | [], entries, current, blockStart =>
    match blockStart with
    | none => entries
    | some bs => flushBlock entries current bs
  | w :: rest, entries, current, blockStart =>
    match blockStart with
    | none => srtLoop rest entries (current ++ [w]) (some w.start)
    | some bs =>
      if 5000 < (w.stop : Int) - bs ∨ 15 ≤ current.length then
        srtLoop rest (flushBlock entries current bs) [w] (some w.start)
      else
        srtLoop rest entries (current ++ [w]) (some bs)

/-- The writing loop of `transcript_to_srt`: for each block, writes
`idx`, `start --> end` (via `ms_to_srt_timestamp`) and the text; the
first timestamp conversion raises, aborting the write. -/
def renderBlocks : Nat → List SrtBlock → Except String String
  | _, [] => .ok ""
  | idx, b :: rest => do
    let sTs ← ms_to_srt_timestamp b.start
    let eTs ← ms_to_srt_timestamp b.stop
    let tail ← renderBlocks (idx + 1) rest
    .ok (toString idx ++ "\n" ++ sTs ++ " --> " ++ eTs ++ "\n" ++ b.text ++ "\n\n" ++ tail)

/-- `transcript_to_srt` from src/captioning.py: raises `ValueError` when
the transcript has no word list, otherwise groups words into blocks and
writes them (which in this code always raises inside
`ms_to_srt_timestamp`).  The produced file content is returned on the
(unreachable) success path. -/
def transcript_to_srt (words : List Word) : Except String String :=
  if words.isEmpty then
    .error "ValueError: Transcript JSON does not contain word-level timestamps."
  else renderBlocks 1 (srtLoop words [] [] none)

/-! ## Subtitle codec (src/translation.py, `parse_srt` / `write_srt`)

Strings are modelled as `List Char` so that Python's `str.split`,
`str.strip` and `str.join` can be embedded and reasoned about
directly. -/

/-- Python string, as a character list. -/
abbrev Str := List Char

/-- ASCII characters removed by Python's default `str.strip()`. -/
def isPyWS (c : Char) : Bool :=
  c == ' ' || c == '\t' || c == '\n' || c == '\r' || c == '\x0b' || c == '\x0c'

/-- Python `str.strip()`. -/
def pyStrip (s : Str) : Str :=
  ((s.dropWhile isPyWS).reverse.dropWhile isPyWS).reverse

/-- Scanning loop of Python `str.split(sep)` for a non-empty separator:
leftmost-first, non-overlapping, empty pieces preserved.  `cur`
accumulates the current piece in reverse; after emitting a piece at a
match, the `skip` counter consumes the remaining `sep.length - 1`
separator characters without further matching. -/
def splitGo (sep : Str) : Str → Nat → Str → List Str
  | [], _, cur => [cur.reverse]
  | _ :: rest, skip + 1, cur => splitGo sep rest skip cur
  | c :: rest, 0, cur =>
    if sep.isPrefixOf (c :: rest) then
      cur.reverse :: splitGo sep rest (sep.length - 1) []
    else
      splitGo sep rest 0 (c :: cur)

/-- Python `s.split(sep)` (non-empty `sep`). -/
def pySplit (sep s : Str) : List Str :=
  splitGo sep s 0 []

/-- Python `sep.join(pieces)`. -/
def joinSep (sep : Str) : List Str → Str
  | [] => []
  | [b] => b
  | b :: bs => b ++ sep ++ joinSep sep bs

/-- Decimal digit character for `n % 10`. -/
def digitChar (n : Nat) : Char :=
  match n with
  | 0 => '0' | 1 => '1' | 2 => '2' | 3 => '3' | 4 => '4'
  | 5 => '5' | 6 => '6' | 7 => '7' | 8 => '8' | _ => '9'

/-- Decimal digits of a natural number below the fuel bound (the fuel
makes the recursion on `n / 10` structural). -/
def natDigitsAux : Nat → Nat → Str
  | 0, _ => []
  | fuel + 1, n =>
    if n < 10 then [digitChar n]
    else natDigitsAux fuel (n / 10) ++ [digitChar (n % 10)]

/-- Decimal digits of a natural number (Python `str` of a non-negative
int). -/
def natDigits (n : Nat) : Str :=
  natDigitsAux (n + 1) n

/-- Python `str(i)` for an int (the f-string rendering of
`e['index']`). -/
def strOfInt (i : Int) : Str :=
  if i < 0 then '-' :: natDigits i.natAbs else natDigits i.toNat

/-- Numeric value of a digit character. -/
def digitVal (c : Char) : Nat := c.toNat - 48

/-- Value of a non-empty all-digit string. -/
def digitsVal? (ds : Str) : Option Nat :=
  if ds ≠ [] ∧ ds.all Char.isDigit then
    some (ds.foldl (fun a c => a * 10 + digitVal c) 0)
  else none

/-- Sign handling of Python `int(s)` after stripping: optional leading
sign followed by decimal digits. -/
def pyIntCore (c : Char) (rest : Str) : Option Int :=
  if c = '-' then (digitsVal? rest).map (fun n => -(Int.ofNat n))
  else if c = '+' then (digitsVal? rest).map (fun n => Int.ofNat n)
  else (digitsVal? (c :: rest)).map (fun n => Int.ofNat n)

/-- Python `int(s)`: strip, optional sign, decimal digits; `none` models
`ValueError`. -/
def pyInt? (s : Str) : Option Int :=
  match pyStrip s with
  | [] => none
  | c :: rest => pyIntCore c rest

/-- A parsed caption entry
`{'index': int, 'start': str, 'end': str, 'text': str}` (key `end`
modelled by `stop`). -/
structure SrtEntry where
  index : Int
  start : Str
  stop : Str
  text : Str
deriving DecidableEq

/-- The literal `' --> '` separator. -/
abbrev arrowSep : Str := [' ', '-', '-', '>', ' ']

/-- The three `f.write` calls of `write_srt` for one entry:
`index`, `start --> end`, `text` plus the blank separator line. -/
def renderEntry (e : SrtEntry) : Str :=
  (strOfInt e.index ++ ['\n']) ++
    (e.start ++ arrowSep ++ e.stop ++ ['\n']) ++
    (e.text ++ ['\n', '\n'])

/-- `write_srt` from src/translation.py: the file content produced for
the entry list. -/
def write_srt (entries : List SrtEntry) : Str :=
  (entries.map renderEntry).flatten

/-- One block's worth of `renderEntry` without the trailing blank-line
separator. -/
def blockOf (e : SrtEntry) : Str :=
  strOfInt e.index ++ ['\n'] ++ (e.start ++ arrowSep ++ e.stop) ++ ['\n'] ++ e.text

/-- The newline separator used for line splitting. -/
abbrev nl1 : Str := ['\n']

/-- The blank-line separator used for block splitting. -/
abbrev nl2 : Str := ['\n', '\n']

/-- Parsing of one block's line list by `parse_srt`: blocks with fewer
than three lines are skipped (`none`); `int(lines[0].strip())` may raise
`ValueError`, and `start, end = lines[1].split(' --> ')` raises unless
the split yields exactly two pieces; the text is
`' '.join(lines[2:]).strip()`. -/
def parseBlockLines (lines : List Str) : Except String (Option SrtEntry) :=
  match lines with
  | l0 :: l1 :: l2 :: rest =>
    match pyInt? (pyStrip l0) with
    | none => .error "ValueError: invalid literal for int"
    | some idx =>
      match pySplit arrowSep l1 with
      | [s, e] => .ok (some ⟨idx, s, e, pyStrip (joinSep [' '] (l2 :: rest))⟩)
      | _ => .error "ValueError: cannot unpack line"
  | _ => .ok none

/-- Parsing of a single block by `parse_srt`: split into lines, then
parse the line list. -/
def parseBlock (block : Str) : Except String (Option SrtEntry) :=
  parseBlockLines (pySplit nl1 block)

/-- `parse_srt` from src/translation.py: strip the whole document, split
on blank lines, parse each block, collecting entries in order. -/
def parse_srt (content : Str) : Except String (List SrtEntry) :=
  (pySplit nl2 (pyStrip content)).foldlM
    (fun acc b => do
      match ← parseBlock b with
      | none => pure acc
      | some e => pure (acc ++ [e])) []

/-- Conditions under which an entry's serialized block is parsed back
verbatim: non-empty strip-invariant single-line text, and timestamps
free of newlines and spaces (so the `' --> '` separator occurs exactly
once in the timing line). -/
def goodEntry (e : SrtEntry) : Prop :=
  e.text ≠ [] ∧ (∀ c ∈ e.text, c ≠ '\n') ∧ pyStrip e.text = e.text ∧
    (∀ c ∈ e.start, c ≠ '\n') ∧ (∀ c ∈ e.start, c ≠ ' ') ∧
    (∀ c ∈ e.stop, c ≠ '\n') ∧ (∀ c ∈ e.stop, c ≠ ' ')

instance (e : SrtEntry) : Decidable (goodEntry e) := by
  unfold goodEntry; infer_instance

/-! ## Translation front-end and ingestion (src/translation.py
`translate_text`, src/main.py `upload_video`) -/

/-- `TARGET_LANGUAGE_MAP` from src/translation.py. -/
def TARGET_LANGUAGE_MAP : List (String × String) :=
  [("en", "English"), ("fr", "French"), ("es", "Spanish"), ("ar", "Arabic")]

/-- `TARGET_LANGUAGE_MAP.get(target_code)`. -/
def languageName? (code : String) : Option String :=
  (TARGET_LANGUAGE_MAP.find? (fun kv => kv.1 == code)).map (fun kv => kv.2)

/-- The `for attempt in range(MAX_RETRIES)` LLM retry loop of
`translate_text`; `llmOk i` is the translated text if attempt `i`
succeeds, `none` an `openai.error.OpenAIError`. -/
def translateLoop (llmOk : Nat → Option String) : Nat → Nat → Except String String
  | 0, _ => .error "RuntimeError: Translation failed after multiple attempts."
  | r + 1, att =>
    match llmOk att with
    | some t => .ok t
    | none => translateLoop llmOk r (att + 1)

/-- `MAX_RETRIES` default from src/translation.py. -/
def MAX_RETRIES : Nat := 3

/-- `translate_text` from src/translation.py: raises
`ValueError(f"Unsupported language code: {target_code}")` when the code
is not in `TARGET_LANGUAGE_MAP`, otherwise runs the LLM retry loop. -/
def translate_text (text : String) (target_code : String)
    (llmOk : Nat → Option String) : Except String String :=
  match languageName? target_code with
  | none => .error ("ValueError: Unsupported language code: " ++ target_code)
  | some _ => translateLoop llmOk MAX_RETRIES 0

/-- The request data reaching `upload_video`: whether a file was
uploaded, the optional `video_url` form field, the languages and the
callback URL. -/
structure UploadRequest where
  video : Bool
  video_url : Option String
  preferred_languages : List String
  callback_url : String
deriving DecidableEq

/-- A FastAPI `HTTPException(status_code, detail)`. -/
structure HTTPErr where
  status_code : Nat
  detail : String
deriving DecidableEq

/-- `upload_video` from src/main.py.  `job_id` models the minted uuid,
`fileExt` the `os.path.splitext` extension, `now` the
`datetime.utcnow().isoformat() + "Z"` submission time, `saveOk` the
outcome of `save_upload_file` and `enqueueOk` the outcome of
`enqueue_job`.  The first component is the payload passed to
`enqueue_job` when that call is reached (regardless of its outcome);
the second is the HTTP response. -/
def upload_video (req : UploadRequest) (job_id fileExt now : String)
    (saveOk enqueueOk : Bool) : Option JobPayload × Except HTTPErr String :=
  if req.video = false ∧ req.video_url = none then
    (none, .error ⟨400, "Either a video file or a video URL must be provided"⟩)
  else if req.video = true ∧ saveOk = false then
    (none, .error ⟨500, "Failed to save uploaded file"⟩)
  else
    let saved_file_path :=
      if req.video then "temp_uploads/" ++ job_id ++ fileExt
      else req.video_url.getD ""
    let payload : JobPayload :=
      { job_id := job_id
        file_path := saved_file_path
        preferred_languages := req.preferred_languages
        callback_url := req.callback_url
        submission_time := some now }
    if enqueueOk then (some payload, .ok job_id)
    else (some payload, .error ⟨500, "Failed to enqueue job"⟩)

/-! # Theorems -/

/-! ## Job queue retry behaviour (C2) -/

theorem range_map_succ_shift {α : Type} (g : Nat → α) (r : Nat) :
    (List.range (r + 1)).map g = g 0 :: (List.range r).map (fun k => g (k + 1)) := by
  rw [List.range_succ_eq_map, List.map_cons, List.map_map]
  rfl

theorem pow_shift_range (a made r : Nat) :
    (List.range (r + 1)).map (fun k => a ^ (made + k + 1)) =
      a ^ (made + 1) :: (List.range r).map (fun k => a ^ (made + 1 + k + 1)) := by
  rw [range_map_succ_shift]
  congr 1
  apply List.map_congr_left
  intro k _
  congr 1
  omega

theorem enqueueAux_all_fail (publishOk : Nat → Bool) :
    ∀ (r made : Nat) (ws : List Nat),
      (∀ i, made ≤ i → i < made + r → publishOk i = false) →
      enqueueAux publishOk r made ws =
        .err (made + r)
          (ws.reverse ++ (List.range r).map (fun k => 2 ^ (made + k + 1)))
          "Failed to enqueue job after multiple attempts" := by
  intro r
  induction r with
  | zero => intro made ws h; simp [enqueueAux]
  | succ r ih =>
    intro made ws h
    have h0 : publishOk made = false := h made le_rfl (by omega)
    have hrec := ih (made + 1) (2 ^ (made + 1) :: ws)
      (fun i h1 h2 => h i (by omega) (by omega))
    rw [enqueueAux, if_neg (by simp [h0]), hrec, pow_shift_range,
      show made + 1 + r = made + (r + 1) by omega]
    simp [List.reverse_cons, List.append_assoc]

theorem enqueueAux_first_success (publishOk : Nat → Bool) :
    ∀ (j r made : Nat) (ws : List Nat),
      j < r → publishOk (made + j) = true →
      (∀ i, made ≤ i → i < made + j → publishOk i = false) →
      enqueueAux publishOk r made ws =
        .ok (made + j + 1)
          (ws.reverse ++ (List.range j).map (fun k => 2 ^ (made + k + 1))) 2 := by
  intro j
  induction j with
  | zero =>
    intro r made ws hjr hok _
    obtain ⟨r', rfl⟩ : ∃ r', r = r' + 1 := ⟨r - 1, by omega⟩
    rw [enqueueAux, if_pos (by simpa using hok)]
    simp
  | succ j ih =>
    intro r made ws hjr hok hfail
    obtain ⟨r', rfl⟩ : ∃ r', r = r' + 1 := ⟨r - 1, by omega⟩
    have h0 : publishOk made = false := hfail made le_rfl (by omega)
    have hrec := ih r' (made + 1) (2 ^ (made + 1) :: ws) (by omega)
      (by rw [show made + 1 + j = made + (j + 1) by omega]; exact hok)
      (fun i h1 h2 => hfail i (by omega) (by omega))
    rw [enqueueAux, if_neg (by simp [h0]), hrec, pow_shift_range,
      show made + 1 + j = made + (j + 1) by omega]
    simp [List.reverse_cons, List.append_assoc]

theorem chain_lt_pow_waits (n : Nat) :
    List.Chain' (· < ·) ((List.range n).map (fun k => 2 ^ (k + 1))) := by
  rw [List.chain'_map]
  cases n with
  | zero => simp
  | succ m =>
    rw [List.chain'_range_succ]
    intro i _
    exact Nat.pow_lt_pow_right (by omega) (by omega)

/-- C2: on persistent transport failure `enqueue_job` makes exactly
`max_retries` publish attempts, sleeping `2 ^ attempt` seconds after the
attempt-th failure — waits strictly increasing between consecutive
attempts — and then raises a terminal enqueue error; on the first
successful publish it returns without further attempts, the message
having been published with the persistence flag (`delivery_mode = 2`). -/
theorem enqueue_job_retry_spec (maxR : Nat) (publishOk : Nat → Bool) :
    ((∀ i, i < maxR → publishOk i = false) →
      enqueue_job publishOk maxR =
        .err maxR ((List.range maxR).map (fun k => 2 ^ (k + 1)))
          "Failed to enqueue job after multiple attempts" ∧
      List.Chain' (· < ·) ((List.range maxR).map (fun k => 2 ^ (k + 1)))) ∧
    (∀ j, j < maxR → publishOk j = true → (∀ i, i < j → publishOk i = false) →
      enqueue_job publishOk maxR =
        .ok (j + 1) ((List.range j).map (fun k => 2 ^ (k + 1))) 2) := by
  constructor
  · intro hfail
    refine ⟨?_, chain_lt_pow_waits maxR⟩
    have := enqueueAux_all_fail publishOk maxR 0 [] (fun i _ h2 => hfail i (by omega))
    simpa [enqueue_job] using this
  · intro j hj hok hfail
    have := enqueueAux_first_success publishOk j maxR 0 [] hj (by simpa using hok)
      (fun i _ h2 => hfail i (by omega))
    simpa [enqueue_job] using this

/-- Witness for C2: with `max_retries = 5` and an always-failing
transport, `enqueue_job` makes 5 attempts with waits 2,4,8,16,32 then
raises; with a transport that succeeds on the third attempt it returns
after exactly 3 attempts, published with `delivery_mode = 2`. -/
theorem enqueue_job_retry_spec_witness :
    (enqueue_job (fun _ => false) 5 =
      .err 5 [2, 4, 8, 16, 32] "Failed to enqueue job after multiple attempts" ∧
      List.Chain' (· < ·) [2, 4, 8, 16, 32]) ∧
    enqueue_job (fun i => decide (2 ≤ i)) 5 = .ok 3 [2, 4] 2 := by
  refine ⟨?_, ?_⟩
  · have h := (enqueue_job_retry_spec 5 (fun _ => false)).1 (fun i _ => rfl)
    exact ⟨by simpa using h.1, h.2⟩
  · have h := (enqueue_job_retry_spec 5 (fun i => decide (2 ≤ i))).2 2 (by omega)
      (by decide) (by decide)
    simpa using h

/-! ## Callback notifier retry behaviour (C3) -/

theorem pow_shift_range_base (b att r : Nat) :
    (List.range (r + 1)).map (fun k => b ^ (att + k)) =
      b ^ att :: (List.range r).map (fun k => b ^ (att + 1 + k)) := by
  rw [range_map_succ_shift]
  congr 1
  apply List.map_congr_left
  intro k _
  congr 1
  omega

theorem sendCallbackLoop_all_fail (deliverOk : Nat → Bool) (backoff : Nat) :
    ∀ (r att : Nat) (ws : List Nat),
      (∀ i, att ≤ i → i < att + r → deliverOk i = false) →
      sendCallbackLoop deliverOk backoff r att ws =
        (false, att + r, ws.reverse ++ (List.range r).map (fun k => backoff ^ (att + k))) := by
  intro r
  induction r with
  | zero => intro att ws h; simp [sendCallbackLoop]
  | succ r ih =>
    intro att ws h
    have h0 : deliverOk att = false := h att le_rfl (by omega)
    have hrec := ih (att + 1) (backoff ^ att :: ws) (fun i h1 h2 => h i (by omega) (by omega))
    rw [sendCallbackLoop, if_neg (by simp [h0]), hrec, pow_shift_range_base,
      show att + 1 + r = att + (r + 1) by omega]
    simp [List.reverse_cons, List.append_assoc]

theorem sendCallbackLoop_first_success (deliverOk : Nat → Bool) (backoff : Nat) :
    ∀ (j r att : Nat) (ws : List Nat),
      j < r → deliverOk (att + j) = true →
      (∀ i, att ≤ i → i < att + j → deliverOk i = false) →
      sendCallbackLoop deliverOk backoff r att ws =
        (true, att + j + 1, ws.reverse ++ (List.range j).map (fun k => backoff ^ (att + k))) := by
  intro j
  induction j with
  | zero =>
    intro r att ws hjr hok _
    obtain ⟨r', rfl⟩ : ∃ r', r = r' + 1 := ⟨r - 1, by omega⟩
    rw [sendCallbackLoop, if_pos (by simpa using hok)]
    simp
  | succ j ih =>
    intro r att ws hjr hok hfail
    obtain ⟨r', rfl⟩ : ∃ r', r = r' + 1 := ⟨r - 1, by omega⟩
    have h0 : deliverOk att = false := hfail att le_rfl (by omega)
    have hrec := ih r' (att + 1) (backoff ^ att :: ws) (by omega)
      (by rw [show att + 1 + j = att + (j + 1) by omega]; exact hok)
      (fun i h1 h2 => hfail i (by omega) (by omega))
    rw [sendCallbackLoop, if_neg (by simp [h0]), hrec, pow_shift_range_base,
      show att + 1 + j = att + (j + 1) by omega]
    simp [List.reverse_cons, List.append_assoc]

theorem sendCallbackLoop_attempts_le (deliverOk : Nat → Bool) (backoff : Nat) :
    ∀ (r att : Nat) (ws : List Nat),
      (sendCallbackLoop deliverOk backoff r att ws).2.1 ≤ att + r := by
  intro r
  induction r with
  | zero => intro att ws; simp [sendCallbackLoop]
  | succ r ih =>
    intro att ws
    rw [sendCallbackLoop]
    by_cases h : deliverOk att = true
    · rw [if_pos h]; simp
    · rw [if_neg h]
      calc (sendCallbackLoop deliverOk backoff r (att + 1) (backoff ^ att :: ws)).2.1
          ≤ att + 1 + r := ih (att + 1) _
        _ = att + (r + 1) := by omega

/-- C3: `send_callback` makes at most `max_retries` delivery attempts,
sleeping `backoff_factor ^ attempt` after each failed attempt (a non-2xx
response or transport error); with an endpoint that first succeeds on
attempt `j < max_retries` it returns `true` after exactly `j + 1`
attempts (so 3 attempts when it fails twice then succeeds), and with an
endpoint that always fails it returns `false` after exactly
`max_retries` attempts. -/
theorem send_callback_retry_spec (maxR backoff : Nat) (deliverOk : Nat → Bool)
    (jid url status : String) (results : PyDict) (em : Option String) (tS tC : String) :
    ((send_callback jid url results status em maxR backoff deliverOk tS tC).2.1 ≤ maxR) ∧
    ((∀ i, i < maxR → deliverOk i = false) →
      (send_callback jid url results status em maxR backoff deliverOk tS tC).1 = false ∧
      (send_callback jid url results status em maxR backoff deliverOk tS tC).2.1 = maxR ∧
      (send_callback jid url results status em maxR backoff deliverOk tS tC).2.2.1 =
        (List.range maxR).map (fun k => backoff ^ k)) ∧
    (∀ j, j < maxR → deliverOk j = true → (∀ i, i < j → deliverOk i = false) →
      (send_callback jid url results status em maxR backoff deliverOk tS tC).1 = true ∧
      (send_callback jid url results status em maxR backoff deliverOk tS tC).2.1 = j + 1 ∧
      (send_callback jid url results status em maxR backoff deliverOk tS tC).2.2.1 =
        (List.range j).map (fun k => backoff ^ k)) := by
  refine ⟨?_, ?_, ?_⟩
  · simpa [send_callback] using sendCallbackLoop_attempts_le deliverOk backoff maxR 0 []
  · intro hfail
    have := sendCallbackLoop_all_fail deliverOk backoff maxR 0 [] (fun i _ h2 => hfail i (by omega))
    simp [send_callback, this]
  · intro j hj hok hfail
    have := sendCallbackLoop_first_success deliverOk backoff j maxR 0 [] hj (by simpa using hok)
      (fun i _ h2 => hfail i (by omega))
    simp [send_callback, this]

/-- Witness for C3 at the defaults `max_retries = 3`,
`backoff_factor = 2`: an endpoint failing twice then succeeding gives
`true` after exactly 3 attempts with waits 1, 2; an endpoint that always
fails gives `false` after exactly 3 attempts with waits 1, 2, 4. -/
theorem send_callback_retry_spec_witness :
    ((send_callback "job-1" "http://cb" [] "completed" none 3 2 (fun i => decide (2 ≤ i)) "t0" "t1").1 = true ∧
      (send_callback "job-1" "http://cb" [] "completed" none 3 2 (fun i => decide (2 ≤ i)) "t0" "t1").2.1 = 3 ∧
      (send_callback "job-1" "http://cb" [] "completed" none 3 2 (fun i => decide (2 ≤ i)) "t0" "t1").2.2.1 = [1, 2]) ∧
    ((send_callback "job-1" "http://cb" [] "completed" none 3 2 (fun _ => false) "t0" "t1").1 = false ∧
      (send_callback "job-1" "http://cb" [] "completed" none 3 2 (fun _ => false) "t0" "t1").2.1 = 3 ∧
      (send_callback "job-1" "http://cb" [] "completed" none 3 2 (fun _ => false) "t0" "t1").2.2.1 = [1, 2, 4]) := by
  constructor
  · have h := (send_callback_retry_spec 3 2 (fun i => decide (2 ≤ i)) "job-1" "http://cb"
      "completed" [] none "t0" "t1").2.2 2 (by omega) (by decide) (by decide)
    exact ⟨h.1, h.2.1, by simpa using h.2.2⟩
  · have h := (send_callback_retry_spec 3 2 (fun _ => false) "job-1" "http://cb"
      "completed" [] none "t0" "t1").2.1 (fun i _ => rfl)
    exact ⟨h.1, h.2.1, by simpa using h.2.2⟩

/-! ## Worker/consumer acknowledgment discipline (C1) and failure
callback payload (C10) -/

/-- C1: for every job message delivered to the consumer exactly one
acknowledgment action is taken — `on_message` produces a single
`AckAction`.  The message is acked iff `process_job` completes without
error; if processing raises `e`, the worker has invoked `send_callback`
on the job's callback URL with status `failed`, empty results and error
message `str(e)`, the exception propagates, and the consumer nacks with
`requeue = False` (dead-letter routing) — never `requeue = True`, never
an ack. -/
theorem consumer_ack_discipline (p : JobPayload) (env : StageEnv) :
    (on_message p env = .ack ↔ (process_job p env).1 = none) ∧
    (∀ e, (process_job p env).1 = some e →
      on_message p env = .nack false ∧
      CallbackCall.mk p.job_id p.callback_url [] "failed" (some e) ∈ (process_job p env).2) ∧
    (∀ b, on_message p env = .nack b → b = false) := by
  unfold on_message process_job
  cases pipelineBody p env with
  | ok results => simp
  | error e => simp

/-- Example environment in which every collaborator call succeeds. -/
def envAllOk : StageEnv :=
  { download := .ok ()
    transcribe := .ok ()
    toSrt := .ok ()
    uploadCaptions := .ok "https://bucket.s3.region.amazonaws.com/j/captions/j.srt"
    getAssemblyChapters := .ok ()
    generateLlmChapters := .ok ()
    writeChaptersFile := .ok ()
    uploadChapters := .ok "https://bucket.s3.region.amazonaws.com/j/chapters/j.json"
    parseEntries := .ok ()
    translateLang := fun _ => .ok ()
    uploadTranslation := fun code => .ok ("https://bucket.s3.region.amazonaws.com/j/translations/" ++ code) }

/-- Example job payload. -/
def exampleJob : JobPayload :=
  { job_id := "job-1"
    file_path := "/tmp/in.mp4"
    preferred_languages := ["fr"]
    callback_url := "https://client.example/cb"
    submission_time := some "2026-01-01T00:00:00" }

/-- Witness for C1: a transcription failure is nacked without requeue
with the failed callback recorded, and a fully successful run is
acked. -/
theorem consumer_ack_discipline_witness :
    (on_message exampleJob { envAllOk with transcribe := .error "boom" } = .nack false ∧
      CallbackCall.mk "job-1" "https://client.example/cb" [] "failed" (some "boom") ∈
        (process_job exampleJob { envAllOk with transcribe := .error "boom" }).2) ∧
    on_message exampleJob envAllOk = .ack := by
  constructor
  · have h := (consumer_ack_discipline exampleJob
      { envAllOk with transcribe := .error "boom" }).2.1 "boom" rfl
    exact ⟨h.1, h.2⟩
  · exact ((consumer_ack_discipline exampleJob envAllOk).1).2 rfl

/-- C10: whenever `process_job` takes its failure path it invokes
`send_callback` with the empty results mapping, so the failure payload's
`submitted_at` is the notification-time `utcnow()` default (not the
job's `submission_time`) and its `results` field is the empty mapping,
with no artifact URLs from stages completed before the failure. -/
theorem failure_callback_payload (p : JobPayload) (env : StageEnv) (e tS tC : String)
    (h : (process_job p env).1 = some e) :
    (process_job p env).2 =
      [CallbackCall.mk p.job_id p.callback_url [] "failed" (some e)] ∧
    (callbackPayload p.job_id [] "failed" (some e) tS tC).submitted_at = .str (tS ++ "Z") ∧
    (callbackPayload p.job_id [] "failed" (some e) tS tC).results = [] := by
  refine ⟨?_, rfl, rfl⟩
  unfold process_job at h ⊢
  cases hb : pipelineBody p env with
  | ok results => rw [hb] at h; simp at h
  | error e' =>
    rw [hb] at h
    simp at h
    subst h
    simp

/-- Witness for C10: a concrete failing run whose failure callback call
carries empty results and whose payload defaults `submitted_at` to the
notification timestamp. -/
theorem failure_callback_payload_witness :
    (process_job exampleJob { envAllOk with download := .ok (), uploadCaptions := .error "S3 down" }).2 =
      [CallbackCall.mk "job-1" "https://client.example/cb" [] "failed" (some "S3 down")] ∧
    (callbackPayload "job-1" [] "failed" (some "S3 down") "2026-01-02T09:00:00" "2026-01-02T09:00:01").submitted_at =
      .str "2026-01-02T09:00:00Z" ∧
    (callbackPayload "job-1" [] "failed" (some "S3 down") "2026-01-02T09:00:00" "2026-01-02T09:00:01").results = [] := by
  have h := failure_callback_payload exampleJob
    { envAllOk with download := .ok (), uploadCaptions := .error "S3 down" }
    "S3 down" "2026-01-02T09:00:00" "2026-01-02T09:00:01" rfl
  exact h

/-! ## Chapter reconciler (C4, C5, C6) -/

theorem applyMarker_start (c : Chapter) (m : Marker) :
    (applyMarker c m).start = c.start := by
  unfold applyMarker
  split <;> (try split) <;> rfl

theorem applyMarker_stop (c : Chapter) (m : Marker) :
    (applyMarker c m).stop = c.stop := by
  unfold applyMarker
  split <;> (try split) <;> rfl

theorem applyMarker_headline (c : Chapter) (m : Marker) :
    (applyMarker c m).headline = c.headline := by
  unfold applyMarker
  split <;> (try split) <;> rfl

theorem markerMatches_applyMarker (c : Chapter) (m m' : Marker) :
    markerMatches (applyMarker c m) m' = markerMatches c m' := by
  unfold markerMatches
  rw [applyMarker_start, applyMarker_stop, applyMarker_headline]

theorem applyMarker_title (c : Chapter) (m : Marker) :
    (applyMarker c m).title = if markerMatches c m then some m.title else c.title := by
  unfold applyMarker markerMatches
  by_cases h1 : c.start ≤ m.start ∧ m.start < c.stop <;>
    by_cases h2 : (c.headline.getD "").length < m.title.length <;>
      simp [h1, h2]

theorem overrideTitles_fields (llm : List Marker) :
    ∀ asm : Chapter,
      (overrideTitles llm asm).start = asm.start ∧
      (overrideTitles llm asm).stop = asm.stop ∧
      (overrideTitles llm asm).headline = asm.headline := by
  induction llm with
  | nil => intro asm; exact ⟨rfl, rfl, rfl⟩
  | cons m rest ih =>
    intro asm
    have h := ih (applyMarker asm m)
    simp only [overrideTitles, List.foldl_cons] at h ⊢
    exact ⟨h.1.trans (applyMarker_start asm m),
      h.2.1.trans (applyMarker_stop asm m),
      h.2.2.trans (applyMarker_headline asm m)⟩

theorem overrideTitles_title_foldl (llm : List Marker) :
    ∀ asm : Chapter,
      (overrideTitles llm asm).title =
        llm.foldl (fun t m => if markerMatches asm m then some m.title else t) asm.title := by
  induction llm with
  | nil => intro asm; rfl
  | cons m rest ih =>
    intro asm
    have h := ih (applyMarker asm m)
    simp only [overrideTitles, List.foldl_cons] at h ⊢
    rw [h, applyMarker_title]
    congr 1
    funext t m'
    rw [markerMatches_applyMarker]

theorem foldl_if_last {α β : Type} (p : α → Bool) (f : α → β) :
    ∀ (l : List α) (init : β),
      l.foldl (fun t m => if p m then f m else t) init =
        ((l.filter p).getLast?).elim init f := by
  intro l
  induction l with
  | nil => intro init; rfl
  | cons m rest ih =>
    intro init
    rw [List.foldl_cons, ih, List.filter_cons]
    by_cases hp : p m = true
    · rw [if_pos hp, if_pos hp]
      cases hfr : (rest.filter p).getLast? with
      | none =>
        rw [List.getLast?_eq_none_iff] at hfr
        rw [hfr]
        rfl
      | some m' =>
        obtain ⟨x, xs, hxs⟩ : ∃ x xs, rest.filter p = x :: xs := by
          cases hrf : rest.filter p with
          | nil => rw [hrf] at hfr; simp at hfr
          | cons x xs => exact ⟨x, xs, rfl⟩
        rw [hxs] at hfr ⊢
        rw [List.getLast?_cons_cons, hfr]
        rfl
    · rw [if_neg hp, if_neg hp]

theorem overrideTitles_title_last (llm : List Marker) (asm : Chapter) :
    (overrideTitles llm asm).title =
      ((llm.filter (markerMatches asm)).getLast?).elim asm.title (fun m => some m.title) := by
  rw [overrideTitles_title_foldl, foldl_if_last]

theorem overrideTitles_no_match (llm : List Marker) (asm : Chapter)
    (h : ∀ m ∈ llm, markerMatches asm m = false) :
    overrideTitles llm asm = asm := by
  have hfields := overrideTitles_fields llm asm
  have htitle := overrideTitles_title_last llm asm
  have hfilter : llm.filter (markerMatches asm) = [] := by
    rw [List.filter_eq_nil_iff]
    intro m hm
    simp [h m hm]
  rw [hfilter] at htitle
  exact Chapter.ext hfields.1 hfields.2.1 hfields.2.2 htitle

/-- C4 corrected, counterexample: the claim's rule — compare candidate
titles against the primary's *current* (possibly already replaced)
title — disagrees with the implementation, which always compares
against the original `headline`.  With headline `"abc"` and two in-range
markers titled `"0123456789"` then `"01234"`, the claim keeps
`"0123456789"` but the code ends with `"01234"`. -/
theorem reconcile_title_rule_counterexample :
    reconcile_chapters [⟨0, 10, some "abc", none⟩] [⟨0, 2, "0123456789"⟩, ⟨3, 4, "01234"⟩] ≠
      specReconcile [⟨0, 10, some "abc", none⟩] [⟨0, 2, "0123456789"⟩, ⟨3, 4, "01234"⟩] := by
  norm_num [reconcile_chapters, specReconcile, updatedAssembly, overrideTitles, applyMarker,
    specApplyMarker, isNovel, toNovel, List.insertionSort, List.orderedInsert,
    show "abc".length = 3 from rfl, show "0123456789".length = 10 from rfl,
    show "01234".length = 5 from rfl]
  decide

/-- C4 amended: in `reconcile_chapters` a primary chapter's title is
replaced by a matching secondary's title exactly when the secondary's
start lies in `[primary.start, primary.end)` and its title is strictly
longer than the primary's *original headline* (`''` when absent) — not
the current, possibly already replaced title; the last such matching
secondary wins.  `start`, `end` and `headline` are never changed. -/
theorem override_title_rule (asm : Chapter) (llm : List Marker) :
    (overrideTitles llm asm).start = asm.start ∧
    (overrideTitles llm asm).stop = asm.stop ∧
    (overrideTitles llm asm).headline = asm.headline ∧
    (overrideTitles llm asm).title =
      ((llm.filter (markerMatches asm)).getLast?).elim asm.title (fun m => some m.title) ∧
    reconcile_chapters [asm] llm =
      List.insertionSort (fun x y => x.start ≤ y.start)
        ([overrideTitles llm asm] ++ (llm.filter (isNovel [asm])).map toNovel) := by
  have hf := overrideTitles_fields llm asm
  exact ⟨hf.1, hf.2.1, hf.2.2, overrideTitles_title_last llm asm, rfl⟩

/-- C5: a secondary chapter whose start is within 1 second of some
primary chapter's start is never appended as a standalone (novel) output
entry of `reconcile_chapters`; the appended novel entries are exactly
the images of the markers passing the no-overlap filter. -/
theorem secondary_dedup_spec (assembly : List Chapter) (llm : List Marker) (m : Marker)
    (hm : m ∈ llm) (hover : ∃ asm ∈ assembly, |m.start - asm.start| < 1) :
    m ∉ llm.filter (isNovel assembly) ∧
    toNovel m ∉ (llm.filter (isNovel assembly)).map toNovel ∧
    reconcile_chapters assembly llm =
      List.insertionSort (fun x y => x.start ≤ y.start)
        (updatedAssembly assembly llm ++ (llm.filter (isNovel assembly)).map toNovel) := by
  obtain ⟨asm, hmem, habs⟩ := hover
  have hnov : isNovel assembly m = false := by
    unfold isNovel
    rw [Bool.not_eq_false', List.any_eq_true]
    exact ⟨asm, hmem, by simpa using habs⟩
  have hnot : m ∉ llm.filter (isNovel assembly) := by
    intro hmf
    rw [List.mem_filter] at hmf
    rw [hnov] at hmf
    exact absurd hmf.2 (by decide)
  refine ⟨hnot, ?_, rfl⟩
  intro hmapmem
  obtain ⟨m', hm', heq⟩ := List.mem_map.mp hmapmem
  have : m' = m := by
    unfold toNovel at heq
    rw [Chapter.mk.injEq] at heq
    exact Marker.ext heq.1 heq.2.1 (Option.some.inj heq.2.2.1)
  rw [this] at hm'
  exact hnot hm'

/-- Witness for C5: a marker starting at 1/2 with a primary starting at
0 (distance 1/2 < 1) is dropped from the novel entries. -/
theorem secondary_dedup_spec_witness :
    (⟨(1 : ℚ)/2, 3, "T"⟩ : Marker) ∉
      ([⟨(1 : ℚ)/2, 3, "T"⟩] : List Marker).filter (isNovel [⟨0, 10, none, none⟩]) ∧
    toNovel ⟨(1 : ℚ)/2, 3, "T"⟩ ∉
      (([⟨(1 : ℚ)/2, 3, "T"⟩] : List Marker).filter (isNovel [⟨0, 10, none, none⟩])).map toNovel ∧
    reconcile_chapters [⟨0, 10, none, none⟩] [⟨(1 : ℚ)/2, 3, "T"⟩] =
      List.insertionSort (fun x y => x.start ≤ y.start)
        (updatedAssembly [⟨0, 10, none, none⟩] [⟨(1 : ℚ)/2, 3, "T"⟩] ++
          (([⟨(1 : ℚ)/2, 3, "T"⟩] : List Marker).filter (isNovel [⟨0, 10, none, none⟩])).map toNovel) :=
  secondary_dedup_spec [⟨0, 10, none, none⟩] [⟨(1 : ℚ)/2, 3, "T"⟩] ⟨(1 : ℚ)/2, 3, "T"⟩
    (by simp)
    ⟨⟨0, 10, none, none⟩, by simp, by rw [sub_zero, abs_of_nonneg (by norm_num)]; norm_num⟩

/-- C6 corrected, counterexample: `reconcile_chapters` is not
side-effect-free — `reconciled.append(asm)` aliases the input dict and
the title override writes through it, so after a call with a matching
longer-titled marker the caller's primary chapter record has acquired a
`title` key. -/
theorem reconcile_mutates_primary_counterexample :
    assemblyAfter [⟨0, 10, some "abc", none⟩] [⟨0, 2, "0123456789"⟩] ≠
      [⟨0, 10, some "abc", none⟩] := by
  have h : assemblyAfter [⟨0, 10, some "abc", none⟩] [⟨0, 2, "0123456789"⟩] =
      [⟨0, 10, some "abc", some "0123456789"⟩] := by
    norm_num [assemblyAfter, updatedAssembly, overrideTitles, applyMarker,
      show "abc".length = 3 from rfl, show "0123456789".length = 10 from rfl]
  rw [h]
  intro hcontra
  have := (List.cons.injEq _ _ _ _ ▸ hcontra).1
  rw [Chapter.mk.injEq] at this
  exact Option.some_ne_none _ this.2.2.2

/-- C6 amended: `reconcile_chapters` is a deterministic merge but does
mutate its primary input's chapter records: after the call each primary
record keeps its `start`, `end` and `headline` and is entirely unchanged
when no marker matches it, while a matching longer-titled marker writes
the aliased record's `title`; the output list is assembled from exactly
these (possibly mutated) records plus the novel entries. -/
theorem reconcile_mutation_scope (assembly : List Chapter) (llm : List Marker) :
    List.Forall₂ (fun orig upd =>
      upd.start = orig.start ∧ upd.stop = orig.stop ∧ upd.headline = orig.headline ∧
      ((∀ m ∈ llm, markerMatches orig m = false) → upd = orig))
      assembly (assemblyAfter assembly llm) ∧
    reconcile_chapters assembly llm =
      List.insertionSort (fun x y => x.start ≤ y.start)
        (assemblyAfter assembly llm ++ (llm.filter (isNovel assembly)).map toNovel) := by
  refine ⟨?_, rfl⟩
  unfold assemblyAfter updatedAssembly
  induction assembly with
  | nil => exact List.Forall₂.nil
  | cons asm rest ih =>
    rw [List.map_cons]
    refine List.Forall₂.cons ?_ ih
    have hf := overrideTitles_fields llm asm
    exact ⟨hf.1, hf.2.1, hf.2.2, fun h => overrideTitles_no_match llm asm h⟩

/-! ## Captioning (C7) -/

theorem flushBlock_ne_nil_of_entries_ne_nil (entries : List SrtBlock)
    (current : List Word) (bs : Nat) (h : entries ≠ []) :
    flushBlock entries current bs ≠ [] := by
  unfold flushBlock
  cases current.getLast? with
  | none => exact h
  | some w => simp

theorem flushBlock_ne_nil_of_current_ne_nil (entries : List SrtBlock)
    (current : List Word) (bs : Nat) (h : current ≠ []) :
    flushBlock entries current bs ≠ [] := by
  unfold flushBlock
  cases hc : current.getLast? with
  | none => rw [List.getLast?_eq_none_iff] at hc; exact absurd hc h
  | some w => simp

theorem srtLoop_ne_nil :
    ∀ (ws : List Word) (entries : List SrtBlock) (current : List Word) (bs : Option Nat),
      (entries ≠ [] ∨ (bs ≠ none ∧ current ≠ [])) →
      srtLoop ws entries current bs ≠ [] := by
  intro ws
  induction ws with
  | nil =>
    intro entries current bs h
    unfold srtLoop
    cases bs with
    | none =>
      rcases h with h | ⟨hb, _⟩
      · exact h
      · exact absurd rfl hb
    | some v =>
      rcases h with h | ⟨_, hc⟩
      · exact flushBlock_ne_nil_of_entries_ne_nil _ _ _ h
      · exact flushBlock_ne_nil_of_current_ne_nil _ _ _ hc
  | cons w rest ih =>
    intro entries current bs h
    cases bs with
    | none =>
      rw [show srtLoop (w :: rest) entries current none =
          srtLoop rest entries (current ++ [w]) (some w.start) from rfl]
      exact ih _ _ _ (Or.inr ⟨by simp, by simp⟩)
    | some v =>
      rw [show srtLoop (w :: rest) entries current (some v) =
          (if 5000 < (w.stop : Int) - v ∨ 15 ≤ current.length then
            srtLoop rest (flushBlock entries current v) [w] (some w.start)
          else srtLoop rest entries (current ++ [w]) (some v)) from rfl]
      split
      · exact ih _ _ _ (Or.inr ⟨by simp, by simp⟩)
      · rcases h with h | ⟨_, hc⟩
        · exact ih _ _ _ (Or.inl h)
        · exact ih _ _ _ (Or.inr ⟨by simp, by simp [hc]⟩)

/-- C7 is a code bug: `ms_to_srt_timestamp` interpolates `td.hours`,
an attribute `datetime.timedelta` does not have, so it raises
`AttributeError` for every millisecond offset instead of returning an
`HH:MM:SS,mmm` string, and `transcript_to_srt` (which formats every
block's timestamps with it) therefore raises for every non-empty word
list instead of writing the numbered caption blocks. -/
theorem ms_to_srt_timestamp_always_raises (ms : Nat) (words : List Word)
    (hw : words ≠ []) :
    ms_to_srt_timestamp ms =
      Except.error "AttributeError: datetime.timedelta object has no attribute hours" ∧
    transcript_to_srt words =
      Except.error "AttributeError: datetime.timedelta object has no attribute hours" := by
  refine ⟨rfl, ?_⟩
  unfold transcript_to_srt
  rw [if_neg (by simpa using hw)]
  have hne : srtLoop words [] [] none ≠ [] := by
    cases words with
    | nil => exact absurd rfl hw
    | cons w rest =>
      unfold srtLoop
      exact srtLoop_ne_nil rest [] [w] (some w.start) (Or.inr ⟨by simp, by simp⟩)
  cases hb : srtLoop words [] [] none with
  | nil => exact absurd hb hne
  | cons b bs => rfl

/-- Witness for C7: `ms_to_srt_timestamp 0` raises, and a one-word
transcript makes `transcript_to_srt` raise. -/
theorem ms_to_srt_timestamp_always_raises_witness :
    ms_to_srt_timestamp 0 =
      Except.error "AttributeError: datetime.timedelta object has no attribute hours" ∧
    transcript_to_srt [⟨0, 500, "hi"⟩] =
      Except.error "AttributeError: datetime.timedelta object has no attribute hours" :=
  ms_to_srt_timestamp_always_raises 0 [⟨0, 500, "hi"⟩] (by simp)

/-! ## Ingestion language validation (C9) -/

/-- C9 corrected, counterexample: a submission whose
`preferred_languages` contains the unsupported code `"de"` is *not*
rejected at the ingestion boundary — `upload_video` reaches
`enqueue_job` with the code passed through verbatim, even though `"de"`
is outside `TARGET_LANGUAGE_MAP`. -/
theorem upload_video_language_counterexample :
    (upload_video ⟨false, some "http://example.com/v.mp4", ["de"], "http://cb"⟩
        "job-1" ".mp4" "2026-01-01T00:00:00" true true).1 =
      some ⟨"job-1", "http://example.com/v.mp4", ["de"], "http://cb",
        some "2026-01-01T00:00:00"⟩ ∧
    languageName? "de" = none ∧
    (upload_video ⟨false, some "http://example.com/v.mp4", ["de"], "http://cb"⟩
        "job-1" ".mp4" "2026-01-01T00:00:00" true true).2 = .ok "job-1" := by
  refine ⟨?_, rfl, ?_⟩ <;> rfl

/-- C9 amended: `upload_video` performs no language validation at all —
whenever a media source is supplied (and saving an uploaded file
succeeds) it hands `enqueue_job` a payload whose `preferred_languages`
is exactly the submitted list, whatever its contents; an unsupported
code only surfaces later, inside the worker pipeline, where
`translate_text` raises `ValueError("Unsupported language code: ...")`. -/
theorem upload_video_no_language_validation (req : UploadRequest)
    (jid ext now : String) (saveOk enqOk : Bool)
    (hsrc : req.video = true ∨ req.video_url ≠ none)
    (hsave : req.video = true → saveOk = true) :
    (upload_video req jid ext now saveOk enqOk).1 =
      some ⟨jid,
        (if req.video then "temp_uploads/" ++ jid ++ ext else req.video_url.getD ""),
        req.preferred_languages, req.callback_url, some now⟩ ∧
    (∀ code llm text, languageName? code = none →
      translate_text text code llm =
        .error ("ValueError: Unsupported language code: " ++ code)) := by
  constructor
  · unfold upload_video
    rw [if_neg (by
      rintro ⟨h1, h2⟩
      rcases hsrc with h | h
      · rw [h1] at h; exact absurd h (by decide)
      · exact h h2)]
    rw [if_neg (by
      rintro ⟨h1, h2⟩
      rw [hsave h1] at h2
      exact absurd h2 (by decide))]
    cases enqOk <;> rfl
  · intro code llm text hcode
    unfold translate_text
    rw [hcode]

/-- Witness for the amended C9: a URL submission with language list
`["de"]` is enqueued verbatim, and `translate_text` raises on `"de"`. -/
theorem upload_video_no_language_validation_witness :
    (upload_video ⟨false, some "http://example.com/v.mp4", ["de"], "http://cb"⟩
        "job-2" ".mp4" "2026-01-01T00:00:00" false true).1 =
      some ⟨"job-2", "http://example.com/v.mp4", ["de"], "http://cb",
        some "2026-01-01T00:00:00"⟩ ∧
    translate_text "hello" "de" (fun _ => some "hallo") =
      .error "ValueError: Unsupported language code: de" := by
  have h := upload_video_no_language_validation
    ⟨false, some "http://example.com/v.mp4", ["de"], "http://cb"⟩
    "job-2" ".mp4" "2026-01-01T00:00:00" false true
    (Or.inr (by simp))
    (fun hvid => absurd hvid (by decide))
  exact ⟨h.1, h.2 "de" (fun _ => some "hallo") "hello" rfl⟩

/-! ## Subtitle codec round trip (C8) -/

theorem isPrefixOf_self_append (l t : Str) : l.isPrefixOf (l ++ t) = true := by
  induction l with
  | nil => simp [List.isPrefixOf]
  | cons a l ih => simp [List.isPrefixOf, ih]

theorem isPrefixOf_cons_of_head_ne (hd : Char) (tl : Str) (c : Char) (rest : Str)
    (h : c ≠ hd) : (hd :: tl).isPrefixOf (c :: rest) = false := by
  simp only [List.isPrefixOf, Bool.and_eq_false_imp]
  intro hbeq
  exact absurd (eq_of_beq hbeq).symm h

theorem splitGo_skip_consume (sep : Str) :
    ∀ (t s cur : Str), splitGo sep (t ++ s) t.length cur = splitGo sep s 0 cur := by
  intro t
  induction t with
  | nil => intro s cur; rfl
  | cons c t ih => intro s cur; exact ih s cur

theorem splitGo_no_match (sep : Str) (c : Char) (rest cur : Str)
    (h : sep.isPrefixOf (c :: rest) = false) :
    splitGo sep (c :: rest) 0 cur = splitGo sep rest 0 (c :: cur) := by
  rw [show splitGo sep (c :: rest) 0 cur =
    (if sep.isPrefixOf (c :: rest) then
      cur.reverse :: splitGo sep rest (sep.length - 1) []
    else splitGo sep rest 0 (c :: cur)) from rfl, if_neg (by simp [h])]

theorem splitGo_match (hd : Char) (tl : Str) (s cur : Str) :
    splitGo (hd :: tl) ((hd :: tl) ++ s) 0 cur =
      cur.reverse :: splitGo (hd :: tl) s 0 [] := by
  rw [show (hd :: tl) ++ s = hd :: (tl ++ s) from rfl]
  rw [show splitGo (hd :: tl) (hd :: (tl ++ s)) 0 cur =
    (if (hd :: tl).isPrefixOf (hd :: (tl ++ s)) then
      cur.reverse :: splitGo (hd :: tl) (tl ++ s) ((hd :: tl).length - 1) []
    else splitGo (hd :: tl) (tl ++ s) 0 (hd :: cur)) from rfl]
  rw [if_pos (by
    have := isPrefixOf_self_append (hd :: tl) s
    exact this)]
  have hlen : (hd :: tl).length - 1 = tl.length := by simp
  rw [hlen, splitGo_skip_consume]

theorem splitGo_scan (hd : Char) (tl : Str) :
    ∀ (u : Str), (∀ c ∈ u, c ≠ hd) → ∀ (s cur : Str),
      splitGo (hd :: tl) (u ++ s) 0 cur = splitGo (hd :: tl) s 0 (u.reverse ++ cur) := by
  intro u
  induction u with
  | nil => intro _ s cur; simp
  | cons c u ih =>
    intro h s cur
    have hc : c ≠ hd := h c (by simp)
    rw [show (c :: u) ++ s = c :: (u ++ s) from rfl,
      splitGo_no_match _ _ _ _ (isPrefixOf_cons_of_head_ne hd tl c (u ++ s) hc),
      ih (fun x hx => h x (by simp [hx])) s (c :: cur)]
    simp [List.reverse_cons, List.append_assoc]

theorem splitGo_terminal (hd : Char) (tl : Str) (u : Str) (h : ∀ c ∈ u, c ≠ hd)
    (cur : Str) : splitGo (hd :: tl) u 0 cur = [cur.reverse ++ u] := by
  have := splitGo_scan hd tl u h [] cur
  rw [List.append_nil] at this
  rw [this, show splitGo (hd :: tl) [] 0 (u.reverse ++ cur) =
    [(u.reverse ++ cur).reverse] from rfl]
  simp

theorem scanB_nl2 (s : Str) (h : ∀ c, s.head? = some c → c ≠ '\n') (cur : Str) :
    splitGo nl2 ('\n' :: s) 0 cur = splitGo nl2 s 0 ('\n' :: cur) := by
  cases s with
  | nil => rfl
  | cons d rest =>
    have hd : d ≠ '\n' := h d rfl
    apply splitGo_no_match
    show List.isPrefixOf ['\n', '\n'] ('\n' :: d :: rest) = false
    simp only [List.isPrefixOf_cons₂, List.isPrefixOf_nil_left, Bool.and_true,
      beq_self_eq_true, Bool.true_and]
    rw [beq_eq_false_iff_ne]
    exact fun h' => hd h'.symm

theorem digitChar_isDigit (n : Nat) : (digitChar n).isDigit = true := by
  unfold digitChar
  split <;> decide

theorem digitVal_digitChar (n : Nat) (h : n < 10) : digitVal (digitChar n) = n := by
  interval_cases n <;> rfl

theorem natDigitsAux_spec :
    ∀ (fuel n : Nat), n < fuel →
      natDigitsAux fuel n ≠ [] ∧
      (∀ c ∈ natDigitsAux fuel n, c.isDigit = true) ∧
      (natDigitsAux fuel n).foldl (fun a c => a * 10 + digitVal c) 0 = n := by
  intro fuel
  induction fuel with
  | zero => intro n h; omega
  | succ fuel ih =>
    intro n h
    by_cases h10 : n < 10
    · rw [show natDigitsAux (fuel + 1) n = if n < 10 then [digitChar n]
        else natDigitsAux fuel (n / 10) ++ [digitChar (n % 10)] from rfl, if_pos h10]
      refine ⟨by simp, ?_, ?_⟩
      · intro c hc
        rw [List.mem_singleton] at hc
        rw [hc]
        exact digitChar_isDigit n
      · simp [digitVal_digitChar n h10]
    · rw [show natDigitsAux (fuel + 1) n = if n < 10 then [digitChar n]
        else natDigitsAux fuel (n / 10) ++ [digitChar (n % 10)] from rfl, if_neg h10]
      have hlt : n / 10 < fuel := by
        have h1 : n / 10 < n := Nat.div_lt_self (by omega) (by omega)
        omega
      obtain ⟨hne, hdig, hval⟩ := ih (n / 10) hlt
      refine ⟨by simp, ?_, ?_⟩
      · intro c hc
        rw [List.mem_append] at hc
        rcases hc with hc | hc
        · exact hdig c hc
        · rw [List.mem_singleton] at hc
          rw [hc]
          exact digitChar_isDigit _
      · rw [List.foldl_append, hval]
        simp [digitVal_digitChar (n % 10) (by omega)]
        omega

theorem natDigits_ne_nil (n : Nat) : natDigits n ≠ [] :=
  (natDigitsAux_spec (n + 1) n (by omega)).1

theorem natDigits_all_digits (n : Nat) : ∀ c ∈ natDigits n, c.isDigit = true :=
  (natDigitsAux_spec (n + 1) n (by omega)).2.1

theorem natDigits_val (n : Nat) :
    (natDigits n).foldl (fun a c => a * 10 + digitVal c) 0 = n :=
  (natDigitsAux_spec (n + 1) n (by omega)).2.2

theorem digitsVal?_natDigits (n : Nat) : digitsVal? (natDigits n) = some n := by
  unfold digitsVal?
  rw [if_pos ⟨natDigits_ne_nil n, List.all_eq_true.mpr (fun c hc => natDigits_all_digits n c hc)⟩,
    natDigits_val]

theorem isDigit_ne_specials {c : Char} (h : c.isDigit = true) :
    c ≠ '\n' ∧ c ≠ '-' ∧ c ≠ '+' ∧ isPyWS c = false := by
  have key : ∀ x : Char, x.isDigit = false → c ≠ x := by
    intro x hx hcx
    rw [hcx, hx] at h
    exact absurd h (by decide)
  refine ⟨key '\n' (by decide), key '-' (by decide), key '+' (by decide), ?_⟩
  unfold isPyWS
  simp only [Bool.or_eq_false_iff, beq_eq_false_iff_ne]
  exact ⟨⟨⟨⟨⟨key ' ' (by decide), key '\t' (by decide)⟩, key '\n' (by decide)⟩,
    key '\r' (by decide)⟩, key '\x0b' (by decide)⟩, key '\x0c' (by decide)⟩

theorem mem_of_head?_eq {s : Str} {c : Char} (h : s.head? = some c) : c ∈ s := by
  cases s with
  | nil => exact absurd h (by simp)
  | cons a t =>
    have ha : a = c := by simpa using h
    rw [← ha]
    exact List.mem_cons_self a t

theorem mem_of_getLast?_eq {s : Str} {c : Char} (h : s.getLast? = some c) : c ∈ s := by
  have hr : s.reverse.head? = some c := by rwa [List.head?_reverse]
  have := mem_of_head?_eq hr
  rwa [List.mem_reverse] at this

theorem dropWhile_eq_self_of_head (p : Char → Bool) (s : Str)
    (h : ∀ c, s.head? = some c → p c = false) : s.dropWhile p = s := by
  cases s with
  | nil => rfl
  | cons c t => rw [List.dropWhile_cons, if_neg (by simp [h c rfl])]

theorem pyStrip_eq_self (s : Str)
    (hh : ∀ c, s.head? = some c → isPyWS c = false)
    (hl : ∀ c, s.getLast? = some c → isPyWS c = false) : pyStrip s = s := by
  unfold pyStrip
  rw [dropWhile_eq_self_of_head _ _ hh,
    dropWhile_eq_self_of_head _ _ (fun c hc => hl c (by rwa [← List.head?_reverse])),
    List.reverse_reverse]

theorem pyStrip_of_no_ws (s : Str) (h : ∀ c ∈ s, isPyWS c = false) : pyStrip s = s :=
  pyStrip_eq_self s (fun c hc => h c (mem_of_head?_eq hc))
    (fun c hc => h c (mem_of_getLast?_eq hc))

theorem pyStrip_append_nl2 (s : Str) (hne : s ≠ [])
    (hh : ∀ c, s.head? = some c → isPyWS c = false)
    (hl : ∀ c, s.getLast? = some c → isPyWS c = false) :
    pyStrip (s ++ nl2) = s := by
  unfold pyStrip
  have h1 : (s ++ nl2).dropWhile isPyWS = s ++ nl2 := by
    apply dropWhile_eq_self_of_head
    intro c hc
    apply hh
    cases s with
    | nil => exact absurd rfl hne
    | cons a t => simpa using hc
  rw [h1, List.reverse_append,
    show nl2.reverse ++ s.reverse = '\n' :: '\n' :: s.reverse from rfl,
    List.dropWhile_cons, if_pos (by decide), List.dropWhile_cons, if_pos (by decide),
    dropWhile_eq_self_of_head _ _ (fun c hc => hl c (by rwa [← List.head?_reverse])),
    List.reverse_reverse]

theorem strOfInt_chars (i : Int) : ∀ c ∈ strOfInt i, c.isDigit = true ∨ c = '-' := by
  unfold strOfInt
  split
  · intro c hc
    rcases List.mem_cons.mp hc with rfl | hc
    · exact Or.inr rfl
    · exact Or.inl (natDigits_all_digits _ c hc)
  · intro c hc
    exact Or.inl (natDigits_all_digits _ c hc)

theorem strOfInt_ne_nil (i : Int) : strOfInt i ≠ [] := by
  unfold strOfInt
  split
  · simp
  · exact natDigits_ne_nil _

theorem strOfInt_no_ws (i : Int) : ∀ c ∈ strOfInt i, isPyWS c = false := by
  intro c hc
  rcases strOfInt_chars i c hc with hd | rfl
  · exact (isDigit_ne_specials hd).2.2.2
  · decide

theorem strOfInt_nl_free (i : Int) : ∀ c ∈ strOfInt i, c ≠ '\n' := by
  intro c hc
  rcases strOfInt_chars i c hc with hd | rfl
  · exact (isDigit_ne_specials hd).1
  · decide

theorem pyStrip_strOfInt (i : Int) : pyStrip (strOfInt i) = strOfInt i :=
  pyStrip_of_no_ws _ (strOfInt_no_ws i)

theorem pyInt?_strOfInt (i : Int) : pyInt? (strOfInt i) = some i := by
  by_cases hneg : i < 0
  · have e1 : strOfInt i = '-' :: natDigits i.natAbs := by
      unfold strOfInt
      rw [if_pos hneg]
    have step : pyInt? (strOfInt i) = pyIntCore '-' (natDigits i.natAbs) := by
      unfold pyInt?
      rw [pyStrip_strOfInt, e1]
    rw [step]
    unfold pyIntCore
    rw [if_pos rfl, digitsVal?_natDigits]
    simp only [Option.map_some']
    congr 1
    simp only [Int.ofNat_eq_coe]
    omega
  · have e1 : strOfInt i = natDigits i.toNat := by
      unfold strOfInt
      rw [if_neg hneg]
    cases hnd : natDigits i.toNat with
    | nil => exact absurd hnd (natDigits_ne_nil _)
    | cons c rest =>
      have hcd : c.isDigit = true := by
        apply natDigits_all_digits i.toNat c
        rw [hnd]
        exact List.mem_cons_self c rest
      obtain ⟨_, hdash, hplus, _⟩ := isDigit_ne_specials hcd
      have step : pyInt? (strOfInt i) = pyIntCore c rest := by
        unfold pyInt?
        rw [pyStrip_strOfInt, e1, hnd]
      rw [step]
      unfold pyIntCore
      rw [if_neg hdash, if_neg hplus, ← hnd, digitsVal?_natDigits]
      simp only [Option.map_some']
      congr 1
      simp only [Int.ofNat_eq_coe]
      omega

theorem dropWhile_len_le (p : Char → Bool) (s : Str) :
    (s.dropWhile p).length ≤ s.length :=
  ((List.dropWhile_suffix p).sublist).length_le

theorem pyStrip_len_le (s : Str) :
    (pyStrip s).length ≤ (s.dropWhile isPyWS).length := by
  unfold pyStrip
  rw [List.length_reverse]
  calc ((s.dropWhile isPyWS).reverse.dropWhile isPyWS).length
      ≤ (s.dropWhile isPyWS).reverse.length := dropWhile_len_le _ _
    _ = (s.dropWhile isPyWS).length := List.length_reverse _

theorem pyStrip_head_not_ws (s : Str) (hs : pyStrip s = s) :
    ∀ c, s.head? = some c → isPyWS c = false := by
  intro c hc
  by_contra hcon
  rw [Bool.not_eq_false] at hcon
  cases s with
  | nil => simp at hc
  | cons a t =>
    have ha : a = c := by simpa using hc
    have h1 : ((a :: t).dropWhile isPyWS).length ≤ t.length := by
      rw [List.dropWhile_cons, if_pos (by rw [ha]; exact hcon)]
      exact dropWhile_len_le _ _
    have h2 := pyStrip_len_le (a :: t)
    rw [hs] at h2
    have h3 : t.length + 1 ≤ t.length := by
      calc t.length + 1 = (a :: t).length := (List.length_cons a t).symm
        _ ≤ ((a :: t).dropWhile isPyWS).length := h2
        _ ≤ t.length := h1
    omega

theorem pyStrip_last_not_ws (s : Str) (hs : pyStrip s = s) :
    ∀ c, s.getLast? = some c → isPyWS c = false := by
  intro c hc
  by_contra hcon
  rw [Bool.not_eq_false] at hcon
  cases hu : s.dropWhile isPyWS with
  | nil =>
    have hempty : pyStrip s = [] := by
      unfold pyStrip
      rw [hu]
      rfl
    rw [hs] at hempty
    rw [hempty] at hc
    simp at hc
  | cons b u' =>
    obtain ⟨pre, hpre⟩ := List.dropWhile_suffix (l := s) isPyWS
    have hlast : (s.dropWhile isPyWS).getLast? = some c := by
      rw [← hc]
      conv_rhs => rw [← hpre]
      rw [List.getLast?_append_of_ne_nil _ (by rw [hu]; simp)]
    have hrev : (s.dropWhile isPyWS).reverse.head? = some c := by
      rwa [List.head?_reverse]
    cases hrv : (s.dropWhile isPyWS).reverse with
    | nil => rw [hrv] at hrev; simp at hrev
    | cons d v =>
      have hd : d = c := by rw [hrv] at hrev; simpa using hrev
      have hlen1 : ((s.dropWhile isPyWS).reverse.dropWhile isPyWS).length ≤ v.length := by
        rw [hrv, List.dropWhile_cons, if_pos (by rw [hd]; exact hcon)]
        exact dropWhile_len_le _ _
      have hlen2 : (pyStrip s).length =
          ((s.dropWhile isPyWS).reverse.dropWhile isPyWS).length := by
        unfold pyStrip
        rw [List.length_reverse]
      have hlen3 : v.length + 1 = (s.dropWhile isPyWS).length := by
        rw [← List.length_reverse (s.dropWhile isPyWS), hrv, List.length_cons]
      have hlen4 : (s.dropWhile isPyWS).length ≤ s.length := dropWhile_len_le _ _
      rw [hs] at hlen2
      omega

theorem splitGo_nl2_sep (s cur : Str) :
    splitGo nl2 ('\n' :: '\n' :: s) 0 cur = cur.reverse :: splitGo nl2 s 0 [] := by
  have := splitGo_match '\n' ['\n'] s cur
  simpa using this

theorem splitGo_nl1_sep (s cur : Str) :
    splitGo nl1 ('\n' :: s) 0 cur = cur.reverse :: splitGo nl1 s 0 [] := by
  have := splitGo_match '\n' [] s cur
  simpa using this

theorem splitGo_arrow_sep (s cur : Str) :
    splitGo arrowSep (' ' :: '-' :: '-' :: '>' :: ' ' :: s) 0 cur =
      cur.reverse :: splitGo arrowSep s 0 [] := by
  have := splitGo_match ' ' ['-', '-', '>', ' '] s cur
  simpa using this

theorem pySplit_timing (start stop : Str)
    (hssp : ∀ c ∈ start, c ≠ ' ') (hpsp : ∀ c ∈ stop, c ≠ ' ') :
    pySplit arrowSep (start ++ arrowSep ++ stop) = [start, stop] := by
  unfold pySplit
  have hassoc : start ++ arrowSep ++ stop =
      start ++ (' ' :: '-' :: '-' :: '>' :: ' ' :: stop) := by
    simp [arrowSep]
  rw [hassoc, splitGo_scan ' ' ['-', '-', '>', ' '] start hssp, splitGo_arrow_sep,
    splitGo_terminal ' ' ['-', '-', '>', ' '] stop hpsp]
  simp

theorem timing_nl_free (start stop : Str) (hs : ∀ c ∈ start, c ≠ '\n')
    (hp : ∀ c ∈ stop, c ≠ '\n') : ∀ c ∈ start ++ arrowSep ++ stop, c ≠ '\n' := by
  intro c hc
  rw [List.append_assoc, List.mem_append] at hc
  rcases hc with hc | hc
  · exact hs c hc
  · rw [List.mem_append] at hc
    rcases hc with hc | hc
    · have : c = ' ' ∨ c = '-' ∨ c = '-' ∨ c = '>' ∨ c = ' ' := by
        simpa using hc
      rcases this with rfl | rfl | rfl | rfl | rfl <;> decide
    · exact hp c hc

theorem pySplit_lines_blockOf (e : SrtEntry) (he : goodEntry e) :
    pySplit nl1 (blockOf e) =
      [strOfInt e.index, e.start ++ arrowSep ++ e.stop, e.text] := by
  obtain ⟨htne, htnl, hts, hsnl, hssp, hpnl, hpsp⟩ := he
  unfold pySplit
  have hassoc : blockOf e =
      strOfInt e.index ++
        ('\n' :: ((e.start ++ arrowSep ++ e.stop) ++ ('\n' :: e.text))) := by
    simp [blockOf]
  rw [hassoc, splitGo_scan '\n' [] (strOfInt e.index) (strOfInt_nl_free e.index),
    splitGo_nl1_sep,
    splitGo_scan '\n' [] (e.start ++ arrowSep ++ e.stop)
      (timing_nl_free e.start e.stop hsnl hpnl),
    splitGo_nl1_sep,
    splitGo_terminal '\n' [] e.text htnl]
  simp

theorem blockScan (e : SrtEntry) (he : goodEntry e) (s cur : Str) :
    splitGo nl2 (blockOf e ++ s) 0 cur = splitGo nl2 s 0 ((blockOf e).reverse ++ cur) := by
  obtain ⟨htne, htnl, hts, hsnl, hssp, hpnl, hpsp⟩ := he
  have hassoc : blockOf e ++ s =
      strOfInt e.index ++
        ('\n' :: ((e.start ++ arrowSep ++ e.stop) ++ ('\n' :: (e.text ++ s)))) := by
    simp [blockOf]
  have hheadT : ∀ c,
      ((e.start ++ arrowSep ++ e.stop) ++ ('\n' :: (e.text ++ s))).head? = some c →
      c ≠ '\n' := by
    intro c hc
    cases hstart : e.start with
    | nil =>
      rw [hstart] at hc
      have : c = ' ' := by simpa using hc.symm
      rw [this]
      decide
    | cons a t =>
      rw [hstart] at hc
      have ha : a = c := by simpa using hc
      rw [← ha]
      exact hsnl a (by rw [hstart]; exact List.mem_cons_self a t)
  have hheadX : ∀ c, (e.text ++ s).head? = some c → c ≠ '\n' := by
    intro c hc
    cases htext : e.text with
    | nil => exact absurd htext htne
    | cons a t =>
      rw [htext] at hc
      have ha : a = c := by simpa using hc
      rw [← ha]
      exact htnl a (by rw [htext]; exact List.mem_cons_self a t)
  rw [hassoc, splitGo_scan '\n' ['\n'] (strOfInt e.index) (strOfInt_nl_free e.index),
    scanB_nl2 _ hheadT,
    splitGo_scan '\n' ['\n'] (e.start ++ arrowSep ++ e.stop)
      (timing_nl_free e.start e.stop hsnl hpnl),
    scanB_nl2 _ hheadX,
    splitGo_scan '\n' ['\n'] e.text htnl]
  congr 1
  simp [blockOf, List.reverse_append]

theorem joinSep_cons_cons (sep b b' : Str) (bs : List Str) :
    joinSep sep (b :: b' :: bs) = b ++ sep ++ joinSep sep (b' :: bs) := rfl

theorem joinSep_cons_ne_nil (sep b : Str) (bs : List Str) (h : bs ≠ []) :
    joinSep sep (b :: bs) = b ++ sep ++ joinSep sep bs := by
  cases bs with
  | nil => exact absurd rfl h
  | cons b' bs' => rfl

theorem renderEntry_eq (e : SrtEntry) : renderEntry e = blockOf e ++ nl2 := by
  simp [renderEntry, blockOf]

theorem blockOf_head_shape (e : SrtEntry) :
    blockOf e = strOfInt e.index ++
      ('\n' :: ((e.start ++ arrowSep ++ e.stop) ++ ('\n' :: e.text))) := by
  simp [blockOf]

theorem blockOf_ne_nil (e : SrtEntry) : blockOf e ≠ [] := by
  rw [blockOf_head_shape]
  simp

theorem write_srt_eq (es : List SrtEntry) (h : es ≠ []) :
    write_srt es = joinSep nl2 (es.map blockOf) ++ nl2 := by
  induction es with
  | nil => exact absurd rfl h
  | cons e rest ih =>
    cases rest with
    | nil =>
      show (List.map renderEntry [e]).flatten = joinSep nl2 (List.map blockOf [e]) ++ nl2
      rw [show (List.map renderEntry [e]).flatten = renderEntry e ++ [] from rfl,
        List.append_nil, renderEntry_eq,
        show joinSep nl2 (List.map blockOf [e]) = blockOf e from rfl]
    | cons e' rest' =>
      unfold write_srt at ih ⊢
      rw [List.map_cons, List.flatten_cons, ih (by simp), renderEntry_eq]
      conv_rhs => rw [List.map_cons, joinSep_cons_ne_nil _ _ _ (by simp)]
      simp [List.append_assoc]

theorem joined_ne_nil (es : List SrtEntry) (h : es ≠ []) :
    joinSep nl2 (es.map blockOf) ≠ [] := by
  cases es with
  | nil => exact absurd rfl h
  | cons e rest =>
    cases rest with
    | nil => exact blockOf_ne_nil e
    | cons e' rest' =>
      rw [List.map_cons, joinSep_cons_ne_nil _ _ _ (by simp)]
      intro hcon
      rw [List.append_eq_nil, List.append_eq_nil] at hcon
      exact blockOf_ne_nil e hcon.1.1

theorem joined_head_not_ws (es : List SrtEntry) :
    ∀ c, (joinSep nl2 (es.map blockOf)).head? = some c → isPyWS c = false := by
  intro c hc
  cases es with
  | nil =>
    rw [show joinSep nl2 (List.map blockOf []) = [] from rfl] at hc
    simp at hc
  | cons e rest =>
    have hbh : (blockOf e).head? = some c := by
      cases rest with
      | nil => simpa using hc
      | cons e' rest' =>
        rw [List.map_cons, joinSep_cons_ne_nil _ _ _ (by simp), List.append_assoc,
          List.head?_append] at hc
        cases hbb : (blockOf e).head? with
        | none =>
          rw [List.head?_eq_none_iff] at hbb
          exact absurd hbb (blockOf_ne_nil e)
        | some x =>
          rw [hbb] at hc
          simpa using hc
    have hsh : (strOfInt e.index).head? = some c := by
      rw [blockOf_head_shape, List.head?_append] at hbh
      cases hsx : (strOfInt e.index).head? with
      | none =>
        rw [List.head?_eq_none_iff] at hsx
        exact absurd hsx (strOfInt_ne_nil e.index)
      | some x =>
        rw [hsx] at hbh
        simpa using hbh
    exact strOfInt_no_ws e.index c (mem_of_head?_eq hsh)

theorem joined_last_not_ws (es : List SrtEntry) (hg : ∀ e ∈ es, goodEntry e) :
    ∀ c, (joinSep nl2 (es.map blockOf)).getLast? = some c → isPyWS c = false := by
  induction es with
  | nil =>
    intro c hc
    rw [show joinSep nl2 (List.map blockOf []) = [] from rfl] at hc
    simp at hc
  | cons e rest ih =>
    intro c hc
    cases rest with
    | nil =>
      obtain ⟨htne, _, hts, _⟩ := hg e (by simp)
      have hbeq : blockOf e =
          (strOfInt e.index ++ ['\n'] ++ (e.start ++ arrowSep ++ e.stop) ++ ['\n']) ++
            e.text := by
        simp [blockOf]
      rw [show joinSep nl2 ([e].map blockOf) = blockOf e from rfl, hbeq,
        List.getLast?_append_of_ne_nil _ htne] at hc
      exact pyStrip_last_not_ws e.text hts c hc
    | cons e' rest' =>
      rw [List.map_cons, joinSep_cons_ne_nil _ _ _ (by simp),
        List.getLast?_append_of_ne_nil _ (joined_ne_nil (e' :: rest') (by simp))] at hc
      exact ih (fun x hx => hg x (by simp [hx])) c hc

theorem pySplit_joined :
    ∀ es : List SrtEntry, (∀ e ∈ es, goodEntry e) → es ≠ [] →
      splitGo nl2 (joinSep nl2 (es.map blockOf)) 0 [] = es.map blockOf := by
  intro es
  induction es with
  | nil => intro _ h; exact absurd rfl h
  | cons e rest ih =>
    intro hg _
    cases rest with
    | nil =>
      have hbs := blockScan e (hg e (by simp)) [] []
      rw [List.append_nil] at hbs
      rw [show joinSep nl2 ([e].map blockOf) = blockOf e from rfl, hbs,
        show splitGo nl2 ([] : Str) 0 ((blockOf e).reverse ++ []) =
          [((blockOf e).reverse ++ ([] : Str)).reverse] from rfl]
      simp
    | cons e' rest' =>
      rw [List.map_cons, joinSep_cons_ne_nil _ _ _ (by simp), List.append_assoc,
        blockScan e (hg e (by simp)),
        show (nl2 : Str) ++ joinSep nl2 (List.map blockOf (e' :: rest')) =
          '\n' :: '\n' :: joinSep nl2 (List.map blockOf (e' :: rest')) from rfl,
        splitGo_nl2_sep,
        ih (fun x hx => hg x (by simp [hx])) (by simp)]
      simp

theorem parseBlock_blockOf (e : SrtEntry) (he : goodEntry e) :
    parseBlock (blockOf e) = .ok (some e) := by
  obtain ⟨htne, htnl, hts, hsnl, hssp, hpnl, hpsp⟩ := he
  unfold parseBlock
  rw [pySplit_lines_blockOf e ⟨htne, htnl, hts, hsnl, hssp, hpnl, hpsp⟩,
    show parseBlockLines
        [strOfInt e.index, e.start ++ arrowSep ++ e.stop, e.text] =
      (match pyInt? (pyStrip (strOfInt e.index)) with
       | none => Except.error "ValueError: invalid literal for int"
       | some idx =>
         (match pySplit arrowSep (e.start ++ arrowSep ++ e.stop) with
          | [s, e'] =>
            Except.ok (some ⟨idx, s, e', pyStrip (joinSep [' '] [e.text])⟩)
          | _ => Except.error "ValueError: cannot unpack line")) from rfl,
    pyStrip_strOfInt, pyInt?_strOfInt, pySplit_timing e.start e.stop hssp hpsp,
    show joinSep [' '] [e.text] = e.text from rfl, hts]

theorem parse_fold (bs : List Str) (es : List SrtEntry)
    (h : List.Forall₂ (fun b e => parseBlock b = .ok (some e)) bs es) :
    ∀ acc : List SrtEntry,
      (bs.foldlM (fun acc b => do
        match ← parseBlock b with
        | none => pure acc
        | some e => pure (acc ++ [e])) acc) = Except.ok (acc ++ es) := by
  induction h with
  | nil =>
    intro acc
    rw [List.append_nil]
    rfl
  | @cons b e bs' es' hbe _ ih =>
    intro acc
    rw [List.foldlM_cons]
    rw [show ((do
        match ← parseBlock b with
        | none => pure acc
        | some x => pure (acc ++ [x])) : Except String (List SrtEntry)) =
      (parseBlock b >>= fun r =>
        match r with
        | none => pure acc
        | some x => pure (acc ++ [x])) from rfl, hbe,
      show ((Except.ok (some e) : Except String (Option SrtEntry)) >>= fun r =>
        match r with
        | none => pure acc
        | some x => pure (acc ++ [x])) = Except.ok (acc ++ [e]) from rfl]
    rw [show (Except.ok (acc ++ [e]) >>= fun acc' =>
        bs'.foldlM (fun acc b => do
          match ← parseBlock b with
          | none => pure acc
          | some x => pure (acc ++ [x])) acc') =
      bs'.foldlM (fun acc b => do
        match ← parseBlock b with
        | none => pure acc
        | some x => pure (acc ++ [x])) (acc ++ [e]) from rfl, ih (acc ++ [e])]
    simp

/-- C8 corrected, counterexample: the round trip fails without
conditions on the entry fields — an entry with empty text serializes to
a two-line block, which `parse_srt` skips (`len(lines) < 3`), so the
entry is dropped. -/
theorem srt_round_trip_counterexample :
    parse_srt (write_srt [⟨1, ['0'], ['5'], []⟩]) = Except.ok [] ∧
    parse_srt (write_srt [⟨1, ['0'], ['5'], []⟩]) ≠
      Except.ok [(⟨1, ['0'], ['5'], []⟩ : SrtEntry)] := by
  refine ⟨rfl, fun hcon => ?_⟩
  rw [show parse_srt (write_srt [⟨1, ['0'], ['5'], []⟩]) = Except.ok [] from rfl] at hcon
  rw [Except.ok.injEq] at hcon
  exact List.noConfusion hcon

/-- C8 amended: writing a list of caption entries with `write_srt` and
parsing the document back with `parse_srt` reproduces the entries
verbatim — same length, identical `index`, `start`, `end`, `text` in
order — provided each entry is well-formed for the line-oriented codec:
text non-empty, newline-free and already stripped, and timestamps free
of newlines and spaces (so the `' --> '` separator is unambiguous).
Without these conditions the round trip can drop or alter entries. -/
theorem srt_round_trip (entries : List SrtEntry)
    (h : ∀ e ∈ entries, goodEntry e) :
    parse_srt (write_srt entries) = Except.ok entries := by
  cases hes : entries with
  | nil => rfl
  | cons e0 rest =>
    rw [← hes]
    have hne : entries ≠ [] := by rw [hes]; simp
    unfold parse_srt pySplit
    rw [write_srt_eq entries hne,
      pyStrip_append_nl2 _ (joined_ne_nil entries hne) (joined_head_not_ws entries)
        (joined_last_not_ws entries h),
      pySplit_joined entries h hne]
    have hfa : List.Forall₂ (fun b e => parseBlock b = .ok (some e))
        (entries.map blockOf) entries := by
      clear hes hne
      induction entries with
      | nil => exact List.Forall₂.nil
      | cons x xs ih =>
        exact List.Forall₂.cons (parseBlock_blockOf x (h x (by simp)))
          (ih (fun y hy => h y (by simp [hy])))
    have := parse_fold (entries.map blockOf) entries hfa []
    simpa using this

/-- Witness for the amended C8: a concrete well-formed caption entry
round-trips exactly. -/
theorem srt_round_trip_witness :
    parse_srt (write_srt
        [⟨1, "00:00:01,000".toList, "00:00:02,500".toList, "Hello world".toList⟩]) =
      Except.ok
        [⟨1, "00:00:01,000".toList, "00:00:02,500".toList, "Hello world".toList⟩] :=
  srt_round_trip
    [⟨1, "00:00:01,000".toList, "00:00:02,500".toList, "Hello world".toList⟩]
    (by decide)

end ABS
